import Mathlib

/-!
Verification of the idempotent document-merge protocol of the
changelog-agent repository (scripts/gen_changelog.py and
scripts/update_agents.py).

Documents are modelled as lists of characters (`Str`), and the Python
string operations used by the two scripts (`in`, `str.replace`,
`str.strip`, slicing, `sorted(set(...))`, and the two concrete regular
expressions) are embedded as executable Lean functions over `Str`.
-/

set_option autoImplicit false
set_option maxRecDepth 40000

abbrev Str := List Char

/-- Boolean test that `pat` is a prefix of `s` (character-by-character). -/
def prefB : Str → Str → Bool
  | [], _ => true
  | _ :: _, [] => false
  | a :: as, b :: bs => if a = b then prefB as bs else false

/-- Index of the first occurrence of `pat` in `s`, scanning left to right;
`none` when `pat` does not occur.  Models the position found by Python
substring search. -/
def firstIdx? (pat : Str) : Str → Option Nat
  | [] => if prefB pat [] then some 0 else none
  | c :: rest =>
    if prefB pat (c :: rest) then some 0
    else (firstIdx? pat rest).map (· + 1)

/-- Python `pat in s`. -/
def containsStr (pat s : Str) : Bool := (firstIdx? pat s).isSome

/-- Fuel-indexed worker for `replaceAll`; the fuel is an upper bound on the
number of characters still to scan, so the recursion is structural. -/
def replaceAllAux (pat rep : Str) : Nat → Str → Str
  | _, [] => []
  | 0, s => s
  | fuel + 1, c :: rest =>
    if prefB pat (c :: rest) && !pat.isEmpty then
      rep ++ replaceAllAux pat rep fuel ((c :: rest).drop pat.length)
    else
      c :: replaceAllAux pat rep fuel rest

/-- Python `s.replace(pat, rep)`: replaces every occurrence, scanning left to
right, non-overlapping.  All call sites in the scripts use a non-empty
pattern, which the fuel `s.length` fully covers. -/
def replaceAll (pat rep s : Str) : Str := replaceAllAux pat rep s.length s

/-- Number of (possibly overlapping) start positions at which `pat` occurs
in `s`; used to state occurrence-count properties. -/
def countOcc (pat : Str) : Str → Nat
  | [] => 0
  | c :: rest => (if prefB pat (c :: rest) then 1 else 0) + countOcc pat rest

/-- Word character of the regex `\b` boundary (`[A-Za-z0-9_]`; the
documents manipulated by the scripts only ever have ASCII characters
adjacent to a PR-number token, where Python's Unicode `\w` coincides with
this ASCII class). -/
def wordChar (c : Char) : Bool := c.isAlphanum || c = '_'

/-- True when the remainder of the text after a token constitutes a `\b`
word boundary: end of text, or a non-word character. -/
def boundaryAfterTok : Str → Bool
  | [] => true
  | c :: _ => !wordChar c

/-- Python `re.search(rf"(#){PR_NUMBER}\b", text) is not None`, with
`tok = "#" + str(PR_NUMBER)`: some position starts with `tok` and is
followed by a word boundary. -/
def hasToken (tok : Str) : Str → Bool
  | [] => false
  | c :: rest =>
    (prefB tok (c :: rest) && boundaryAfterTok ((c :: rest).drop tok.length))
      || hasToken tok rest

/-- Whitespace removed by Python `str.strip()` (the ASCII whitespace
characters; the configured blocks in scope are ASCII). -/
def isSpace (c : Char) : Bool :=
  c = ' ' || c = '\t' || c = '\n' || c = '\r' || c = '\x0b' || c = '\x0c'

/-- Python `s.strip()`. -/
def pyStrip (s : Str) : Str :=
  ((s.dropWhile isSpace).reverse.dropWhile isSpace).reverse

/-- Python string `<=` on code points (lexicographic). -/
def lexLe : Str → Str → Bool
  | [], _ => true
  | _ :: _, [] => false
  | a :: as, b :: bs =>
    if a.toNat < b.toNat then true
    else if b.toNat < a.toNat then false
    else lexLe as bs

/-- Insert into a `lexLe`-sorted list. -/
def insertLe (x : Str) : List Str → List Str
  | [] => [x]
  | y :: ys => if lexLe x y then x :: y :: ys else y :: insertLe x ys

/-- Insertion sort by `lexLe`; on duplicate-free input this is the unique
sorted arrangement, matching Python `sorted`. -/
def sortLe : List Str → List Str
  | [] => []
  | x :: xs => insertLe x (sortLe xs)

/-- Remove duplicate strings (keeping one representative of each); together
with `sortLe` this models Python `sorted(set(...))`, whose value depends
only on the set of elements. -/
def dedupL : List Str → List Str
  | [] => []
  | x :: xs =>
    let d := dedupL xs
    if x ∈ d then d else x :: d

/-- End position of the match of the regex `pat1 [\s\S]*? pat2` under
`re.search` semantics: the match starts at the leftmost occurrence of
`pat1` that is followed (at or after its end) by an occurrence of `pat2`,
and the lazy `[\s\S]*?` makes the match end at the end of the first such
occurrence of `pat2`.  Since any occurrence of `pat2` after a later start
of `pat1` is also after the first start, the leftmost viable start is the
first occurrence of `pat1`. -/
def lazyMatchEnd? (pat1 pat2 s : Str) : Option Nat :=
  match firstIdx? pat1 s with
  | none => none
  | some i =>
    match firstIdx? pat2 (s.drop (i + pat1.length)) with
    | none => none
    | some j => some (i + pat1.length + j + pat2.length)

/-! ## Changelog pipeline (scripts/gen_changelog.py) -/

/-- The validated structured generation result for the changelog pipeline
(dict `parsed` in the script): schema `ChangelogEntry`.  Absent optional
fields (`scope`, `migration`) behave like the empty string, since the
script only tests their truthiness. -/
structure ChangelogEntry where
  category : Str
  summary : Str
  scope : Str
  breaking : Bool
  migration : Str
  references : List Str

/-- The deterministic fallback entry built in the `except` branch of the
generator call: `title.strip()[:200]` as summary, category `"Changed"`,
scope `scope_guess`, not breaking, no migration, no references. -/
def changelogFallback (title scopeGuess : Str) : ChangelogEntry :=
  { category := ("Changed").data
    summary := (pyStrip title).take 200
    scope := scopeGuess
    breaking := false
    migration := []
    references := [] }

/-- The generator call with its broad `except Exception` handler:
`none` models any raised exception (network failure, non-JSON output,
schema violation), in which case the fallback entry is used. -/
def genChangelogEntry (gen : Option ChangelogEntry) (title scopeGuess : Str) :
    ChangelogEntry :=
  match gen with
  | some e => e
  | none => changelogFallback title scopeGuess

/-- The token `f"#{PR_NUMBER}"`. -/
def prToken (pr : Nat) : Str := '#' :: Nat.toDigits 10 pr

/-- Reference normalization: `refs = set(references); refs.update({f"#{pr}",
f"@{author}"}); sorted(refs)`. -/
def normalizedRefs (e : ChangelogEntry) (pr : Nat) (author : Str) : List Str :=
  sortLe (dedupL (e.references ++ [prToken pr, '@' :: author]))

/-- The list `bullet_parts` after the `if p` filter of the join: the scope
token `[scope]` when scope is non-empty, the breaking marker when
`breaking`, and the summary when non-empty (the first two are non-empty by
construction, so only the summary is affected by the filter). -/
def bulletParts (e : ChangelogEntry) : List Str :=
  (if e.scope = [] then [] else [('[' :: e.scope) ++ [']']])
    ++ (if e.breaking then [("⚠️ BREAKING").data] else [])
    ++ (if e.summary = [] then [] else [e.summary])

/-- `bullet = " - " + " ".join(p for p in bullet_parts if p)`. -/
def mkBullet (e : ChangelogEntry) : Str :=
  (" - ").data ++ List.intercalate [' '] (bulletParts e)

/-- `refs_str = " (" + ", ".join(refs) + ")"`. -/
def refsStr (refs : List Str) : Str :=
  (" (").data ++ List.intercalate ((", ").data) refs ++ [')']

/-- The full inserted block: bullet line plus, for a breaking change with a
non-empty migration note, the `   - **Migration:** ...` continuation line. -/
def mkInsertion (e : ChangelogEntry) (pr : Nat) (author : Str) : Str :=
  mkBullet e ++ refsStr (normalizedRefs e pr author) ++ ['\n']
    ++ (if e.breaking ∧ e.migration ≠ [] then
          ("   - **Migration:** ").data ++ e.migration ++ ['\n']
        else [])

def unreleasedHdr : Str := ("## [Unreleased]").data

def unreleasedLine : Str := ("## [Unreleased]\n").data

/-- The line `f"### {header}\n"`. -/
def catHeaderLine (cat : Str) : Str := ("### ").data ++ cat ++ ['\n']

/-- The marker `f"\n### {header}\n"` tested by `ensure_section`. -/
def sectionMarker (cat : Str) : Str := '\n' :: catHeaderLine cat

/-- `ensure_section` of the script: if the marker `\n### {header}\n` is not
in the text, replace every `## [Unreleased]\n` by
`## [Unreleased]\n\n### {header}\n\n`. -/
def ensure_section (txt cat : Str) : Str :=
  if containsStr (sectionMarker cat) txt then txt
  else replaceAll unreleasedLine (unreleasedLine ++ sectionMarker cat ++ ['\n']) txt

/-- The canonical skeleton written when the changelog file does not exist. -/
def changelogSkeleton : Str :=
  ("# Changelog\n\nAll notable changes to this project will be documented in this file.\n\nThe format is based on [Keep a Changelog](https://keepachangelog.com/en/1.1.0/), and this project adheres to [Semantic Versioning](https://semver.org/spec/v2.0.0.html).\n\n## [Unreleased]\n\n").data

/-- The whole changelog merge (lines 124-161 of gen_changelog.py), as a
function from the current document text to the text written back:
idempotency guard, `ensure_section`, bullet construction, insertion at the
end of the regex match `## \[Unreleased\][\s\S]*?### {category}\n`, or the
fallback `replace` when the regex does not match. -/
def mergeChangelog (e : ChangelogEntry) (pr : Nat) (author : Str) (text : Str) : Str :=
  if hasToken (prToken pr) text then text
  else
    match lazyMatchEnd? unreleasedHdr (catHeaderLine e.category) (ensure_section text e.category) with
    | some idx =>
      (ensure_section text e.category).take idx ++ mkInsertion e pr author
        ++ (ensure_section text e.category).drop idx
    | none =>
      replaceAll unreleasedLine
        (unreleasedLine ++ sectionMarker e.category ++ mkInsertion e pr author ++ ['\n'])
        (ensure_section text e.category)

/-! ## Agents-instructions pipeline (scripts/update_agents.py) -/

/-- `ensure_always_include_block`: no-op for a whitespace-only block or when
the stripped block already occurs in the text; otherwise append the
stripped block after a blank-line separator and end with one newline.
(In the source, `sep` is `"\n\n"` in both branches of its conditional.) -/
def ensure_always_include_block (text required : Str) : Str :=
  if pyStrip required = [] then text
  else if containsStr (pyStrip required) text then text
  else text ++ ("\n\n").data ++ pyStrip required ++ ['\n']

/-- The validated structured generation result for the agents pipeline
(schema `AgentsUpdate`). -/
structure AgentsUpdate where
  updated_content : Str
  summary : Str

/-- The fixed notice reported when the generator call fails. -/
def noLLMNotice : Str := ("No LLM changes; enforced required block.").data

/-- `llm_update`, abstracted over the generator outcome: `none` models the
`except Exception` branch (content falls back to the current on-disk text,
summary to the fixed notice).  In both branches an empty content string is
replaced by the current text (`content or current`) before the
always-include block is enforced.  Returns `(content, summary)`. -/
def llm_update (current alwaysInclude : Str) (gen : Option AgentsUpdate) : Str × Str :=
  match gen with
  | some parsed =>
    let content := parsed.updated_content
    (ensure_always_include_block (if content = [] then current else content) alwaysInclude,
      parsed.summary)
  | none =>
    (ensure_always_include_block current alwaysInclude, noLLMNotice)

/-- Outcome of the `__main__` guard around `main()`. -/
inductive RunOutcome where
  | completed : RunOutcome
  | raised : Str → RunOutcome
  | swallowed : Str → RunOutcome
deriving DecidableEq

/-- Normalization of the `AGENTS_MODE` environment value:
`.strip().lower()`. -/
def normalizeMode (raw : Str) : Str := (pyStrip raw).map Char.toLower

/-- The `__main__` exception boundary (lines 265-271 of update_agents.py):
an exception escaping `main()` is printed and re-raised exactly when the
normalized mode equals `apply`; otherwise it is swallowed. -/
def mainGuard (mode : Str) (body : Except Str Unit) : RunOutcome :=
  match body with
  | .ok _ => .completed
  | .error e => if mode = ("apply").data then .raised e else .swallowed e

/-- True when the text ends with exactly one trailing newline
(a final `\n` not preceded by another `\n`). -/
def endsSingleNewline (s : Str) : Bool :=
  match s.reverse with
  | [] => false
  | c :: rest =>
    if c = '\n' then
      match rest with
      | [] => true
      | d :: _ => if d = '\n' then false else true
    else false

/-! ## Sample data used by the concrete witnesses and counterexamples -/

/-- A plain non-breaking entry of category `Added`. -/
def sampleEntry : ChangelogEntry :=
  { category := ("Added").data
    summary := ("New item").data
    scope := []
    breaking := false
    migration := []
    references := [] }

/-- Prefix of a changelog up to and including the `### Added` section header
position used by the C5 witness. -/
def c5p : Str := ("# Changelog\n\n## [Unreleased]\n").data

/-- Pre-existing entries of the `### Added` section used by the C5 witness. -/
def c5q : Str := (" - old item (#1, @bob)\n").data

/-- The entry used to exhibit the C2 misplacement. -/
def secEntry : ChangelogEntry :=
  { category := ("Security").data
    summary := ("Patch XSS").data
    scope := []
    breaking := false
    migration := []
    references := [] }

/-- The document produced by the C2 merge: the input is a changelog whose
only `### Security` subsection sits under the released `## [1.0.0]`
section, and the merged bullet lands inside that released section. -/
def c2result : Str :=
  ("# Changelog\n\n## [Unreleased]\n\n### Added\n - Seed (#1, @bob)\n\n## [1.0.0] - 2024-01-01\n\n### Security\n - Patch XSS (#2, @eve)\n - Old hardening note\n").data

/-- The concrete entry of the C3 end-to-end scenario. -/
def c3entry : ChangelogEntry :=
  { category := ("Fixed").data
    summary := ("Fix crash on empty input").data
    scope := ("parser").data
    breaking := true
    migration := ("Call initParser() before use").data
    references := [("#7").data] }

/-! ## Basic lemmas about the string primitives -/

theorem prefB_iff (pat : Str) : ∀ s : Str, prefB pat s = true ↔ ∃ t, s = pat ++ t := by
  induction pat with
  | nil =>
    intro s
    simp [prefB]
  | cons a as ih =>
    intro s
    cases s with
    | nil =>
      simp [prefB]
    | cons b bs =>
      simp only [prefB, List.cons_append]
      by_cases hab : a = b
      · subst hab
        rw [if_pos rfl, ih bs]
        constructor
        · rintro ⟨t, rfl⟩
          exact ⟨t, rfl⟩
        · rintro ⟨t, ht⟩
          injection ht with _ h2
          exact ⟨t, h2⟩
      · rw [if_neg hab]
        constructor
        · intro h
          exact absurd h (by simp)
        · rintro ⟨t, ht⟩
          injection ht with h1 _
          exact absurd h1.symm hab

theorem prefB_append_self (pat t : Str) : prefB pat (pat ++ t) = true :=
  (prefB_iff pat (pat ++ t)).mpr ⟨t, rfl⟩

theorem prefB_length {pat s : Str} (h : prefB pat s = true) : pat.length ≤ s.length := by
  obtain ⟨t, rfl⟩ := (prefB_iff pat s).mp h
  simp

theorem prefB_extend {pat s : Str} (r : Str) (h : prefB pat s = true) :
    prefB pat (s ++ r) = true := by
  obtain ⟨t, rfl⟩ := (prefB_iff pat s).mp h
  rw [List.append_assoc]
  exact prefB_append_self pat (t ++ r)

theorem take_len_app (a b : Str) : (a ++ b).take a.length = a := by
  induction a with
  | nil => simp
  | cons c cs ih => simp [ih]

theorem drop_len_app (a b : Str) : (a ++ b).drop a.length = b := by
  induction a with
  | nil => simp
  | cons c cs ih => simp [ih]

theorem drop_app_of_le {n : Nat} (a b : Str) (h : n ≤ a.length) :
    (a ++ b).drop n = a.drop n ++ b := by
  induction a generalizing n with
  | nil =>
    have hn : n = 0 := by simpa using h
    subst hn
    simp
  | cons c cs ih =>
    cases n with
    | zero => simp
    | succ m =>
      simp only [List.cons_append, List.drop_succ_cons]
      exact ih (by simpa using h)

theorem firstIdx_some_iff (pat : Str) :
    ∀ (s : Str) (i : Nat), firstIdx? pat s = some i ↔
      (prefB pat (s.drop i) = true ∧ ∀ j, j < i → prefB pat (s.drop j) = false) := by
  intro s
  induction s with
  | nil =>
    intro i
    simp only [firstIdx?, List.drop_nil]
    by_cases h : prefB pat [] = true
    · rw [if_pos h]
      constructor
      · rintro hi
        cases hi
        exact ⟨h, by omega⟩
      · rintro ⟨-, hmin⟩
        rcases Nat.eq_zero_or_pos i with rfl | hpos
        · rfl
        · exact absurd h (by simpa using hmin 0 hpos)
    · rw [if_neg h]
      constructor
      · intro hi
        exact absurd hi (by simp)
      · rintro ⟨h1, -⟩
        exact absurd h1 h
  | cons c rest ih =>
    intro i
    simp only [firstIdx?]
    by_cases h : prefB pat (c :: rest) = true
    · rw [if_pos h]
      constructor
      · rintro hi
        cases hi
        exact ⟨by simpa using h, by omega⟩
      · rintro ⟨-, hmin⟩
        rcases Nat.eq_zero_or_pos i with rfl | hpos
        · rfl
        · exact absurd (by simpa using h) (by simpa using hmin 0 hpos)
    · rw [if_neg h]
      constructor
      · intro hi
        rcases Option.map_eq_some'.mp hi with ⟨k, hk, rfl⟩
        rcases (ih k).mp hk with ⟨h1, hmin⟩
        refine ⟨by simpa using h1, ?_⟩
        intro j hj
        cases j with
        | zero => simpa using (Bool.not_eq_true _).mp h
        | succ m =>
          simp only [List.drop_succ_cons]
          exact hmin m (by omega)
      · rintro ⟨h1, hmin⟩
        cases i with
        | zero => exact absurd (by simpa using h1) h
        | succ k =>
          have hk : firstIdx? pat rest = some k := by
            rw [ih k]
            refine ⟨by simpa using h1, ?_⟩
            intro j hj
            have := hmin (j + 1) (by omega)
            simpa using this
          rw [hk]
          rfl

theorem firstIdx_none_iff (pat : Str) :
    ∀ s : Str, firstIdx? pat s = none ↔ ∀ j, prefB pat (s.drop j) = false := by
  intro s
  induction s with
  | nil =>
    simp only [firstIdx?, List.drop_nil]
    by_cases h : prefB pat [] = true
    · rw [if_pos h]
      constructor
      · intro hi
        exact absurd hi (by simp)
      · intro hall
        exact absurd h (by simpa using hall 0)
    · rw [if_neg h]
      exact ⟨fun _ j => (Bool.not_eq_true _).mp h, fun _ => rfl⟩
  | cons c rest ih =>
    simp only [firstIdx?]
    by_cases h : prefB pat (c :: rest) = true
    · rw [if_pos h]
      constructor
      · intro hi
        exact absurd hi (by simp)
      · intro hall
        exact absurd h (by simpa using hall 0)
    · rw [if_neg h]
      constructor
      · intro hi
        have hrest : firstIdx? pat rest = none := by
          cases hr : firstIdx? pat rest with
          | none => rfl
          | some k => rw [hr] at hi; exact absurd hi (by simp)
        intro j
        cases j with
        | zero => simpa using (Bool.not_eq_true _).mp h
        | succ m =>
          simp only [List.drop_succ_cons]
          exact (ih.mp hrest) m
      · intro hall
        have : firstIdx? pat rest = none := by
          rw [ih]
          intro j
          simpa using hall (j + 1)
        rw [this]
        rfl

theorem containsStr_iff (pat s : Str) :
    containsStr pat s = true ↔ ∃ i, prefB pat (s.drop i) = true := by
  unfold containsStr
  rw [Option.isSome_iff_exists]
  constructor
  · rintro ⟨i, hi⟩
    exact ⟨i, ((firstIdx_some_iff pat s i).mp hi).1⟩
  · rintro ⟨i, hi⟩
    cases hf : firstIdx? pat s with
    | none => exact absurd hi (by simpa using (firstIdx_none_iff pat s).mp hf i)
    | some k => exact ⟨k, rfl⟩

theorem containsStr_false_iff (pat s : Str) :
    containsStr pat s = false ↔ ∀ j, prefB pat (s.drop j) = false := by
  unfold containsStr
  constructor
  · intro h j
    cases hf : firstIdx? pat s with
    | none => exact (firstIdx_none_iff pat s).mp hf j
    | some k => rw [hf] at h; exact absurd h (by simp)
  · intro hall
    rw [(firstIdx_none_iff pat s).mpr hall]
    rfl

theorem containsStr_of_middle (pat a b : Str) : containsStr pat (a ++ pat ++ b) = true := by
  rw [containsStr_iff]
  refine ⟨a.length, ?_⟩
  rw [List.append_assoc, drop_len_app]
  exact prefB_append_self pat b

theorem containsStr_append_right {pat a : Str} (b : Str) (hne : pat ≠ [])
    (h : containsStr pat a = true) : containsStr pat (a ++ b) = true := by
  rcases (containsStr_iff pat a).mp h with ⟨i, hi⟩
  have hilen : i ≤ a.length := by
    by_contra hgt
    have : a.drop i = [] := List.drop_eq_nil_of_le (by omega)
    rw [this] at hi
    rcases (prefB_iff pat []).mp hi with ⟨t, ht⟩
    have hpt : pat = [] ∧ t = [] := by simpa using ht.symm
    exact hne hpt.1
  rw [containsStr_iff]
  refine ⟨i, ?_⟩
  rw [drop_app_of_le a b hilen]
  exact prefB_extend b hi

theorem replaceAllAux_not_contains {pat : Str} (rep : Str) :
    ∀ (fuel : Nat) (s : Str), (∀ j, prefB pat (s.drop j) = false) →
      replaceAllAux pat rep fuel s = s := by
  intro fuel
  induction fuel with
  | zero =>
    intro s _
    cases s <;> rfl
  | succ n ih =>
    intro s hall
    cases s with
    | nil => rfl
    | cons c rest =>
      have h0 : prefB pat (c :: rest) = false := by simpa using hall 0
      simp only [replaceAllAux, h0, Bool.false_and, Bool.false_eq_true, if_false]
      congr 1
      exact ih rest (fun j => by simpa using hall (j + 1))

theorem replaceAll_not_contains {pat s : Str} (rep : Str)
    (h : containsStr pat s = false) : replaceAll pat rep s = s :=
  replaceAllAux_not_contains rep s.length s ((containsStr_false_iff pat s).mp h)

/-- Where the regex `pat1 [\s\S]*? pat2` match ends when `pat1` occurs
inside `p` and the displayed occurrence of `pat2` (at position `p.length`)
is the first occurrence of `pat2` in the whole text. -/
theorem lazyMatchEnd_at (pat1 pat2 p q : Str)
    (hne : pat1 ≠ [])
    (hp1 : containsStr pat1 p = true)
    (hp2 : firstIdx? pat2 (p ++ pat2 ++ q) = some p.length) :
    lazyMatchEnd? pat1 pat2 (p ++ pat2 ++ q) = some (p.length + pat2.length) := by
  set s := p ++ pat2 ++ q with hs
  rcases (containsStr_iff pat1 p).mp hp1 with ⟨a, ha⟩
  have halen : a + pat1.length ≤ p.length := by
    have hl1 : pat1.length ≤ (p.drop a).length := prefB_length ha
    have hl2 : a < p.length := by
      by_contra hge
      have hdr : p.drop a = [] := List.drop_eq_nil_of_le (by omega)
      rw [hdr] at ha
      rcases (prefB_iff pat1 []).mp ha with ⟨t, ht⟩
      have hpt : pat1 = [] ∧ t = [] := by simpa using ht.symm
      exact hne hpt.1
    have hl3 : (p.drop a).length = p.length - a := by simp
    omega
  have hcs : containsStr pat1 s = true := by
    rw [hs, List.append_assoc]
    exact containsStr_append_right _ hne hp1
  unfold containsStr at hcs
  rcases Option.isSome_iff_exists.mp hcs with ⟨i, hi⟩
  rcases (firstIdx_some_iff pat1 s i).mp hi with ⟨hipre, himin⟩
  have hia : i ≤ a := by
    by_contra hlt
    have hfalse := himin a (by omega)
    have htrue : prefB pat1 (s.drop a) = true := by
      rw [hs, List.append_assoc, drop_app_of_le p _ (by omega)]
      exact prefB_extend _ ha
    rw [htrue] at hfalse
    cases hfalse
  rcases (firstIdx_some_iff pat2 s p.length).mp hp2 with ⟨h2pre, h2min⟩
  have hk : i + pat1.length ≤ p.length := by omega
  have hstep : firstIdx? pat2 (s.drop (i + pat1.length))
      = some (p.length - (i + pat1.length)) := by
    rw [firstIdx_some_iff]
    constructor
    · rw [List.drop_drop]
      have harith : i + pat1.length + (p.length - (i + pat1.length)) = p.length := by omega
      rw [harith]
      exact h2pre
    · intro j hj
      rw [List.drop_drop]
      exact h2min (i + pat1.length + j) (by omega)
  simp only [lazyMatchEnd?, hi, hstep]
  congr 1
  omega

/-- C5: prepend ordering and frame condition.  For a changelog document of
the form `p ++ "\n### <cat>\n" ++ q` — the category section header occurs
(for the first time) after an `## [Unreleased]` heading inside `p`, and the
PR token is not yet present — the merge splices the new bullet block
exactly between the category header line and the section's pre-existing
entries `q`: the result is `p ++ "\n### <cat>\n" ++ block ++ q`, so the new
bullet precedes every pre-existing entry of the section and every other
character of the document is unchanged. -/
theorem changelog_prepend_ordering (e : ChangelogEntry) (pr : Nat) (author p q : Str)
    (h1 : hasToken (prToken pr) (p ++ sectionMarker e.category ++ q) = false)
    (h2 : containsStr unreleasedHdr p = true)
    (h3 : firstIdx? (catHeaderLine e.category) (p ++ sectionMarker e.category ++ q)
            = some (p.length + 1)) :
    mergeChangelog e pr author (p ++ sectionMarker e.category ++ q)
      = p ++ sectionMarker e.category ++ mkInsertion e pr author ++ q := by
  set cat := e.category with hcat
  set doc := p ++ sectionMarker cat ++ q with hdoc
  have hdoc2 : doc = (p ++ ['\n']) ++ catHeaderLine cat ++ q := by
    rw [hdoc]
    simp [sectionMarker, List.append_assoc]
  have hguard : ¬ (hasToken (prToken pr) doc = true) := by
    rw [h1]
    simp
  have hmark : containsStr (sectionMarker cat) doc = true := by
    rw [hdoc]
    exact containsStr_of_middle _ p q
  have hens : ensure_section doc cat = doc := by
    unfold ensure_section
    rw [if_pos hmark]
  have hplen : (p ++ ['\n']).length = p.length + 1 := by simp
  have hmatch : lazyMatchEnd? unreleasedHdr (catHeaderLine cat) doc
      = some ((p ++ ['\n']).length + (catHeaderLine cat).length) := by
    rw [hdoc2]
    apply lazyMatchEnd_at
    · simp [unreleasedHdr]
    · exact containsStr_append_right _ (by simp [unreleasedHdr]) h2
    · rw [← hdoc2, hplen]
      exact h3
  have hidx : (p ++ ['\n']).length + (catHeaderLine cat).length
      = (p ++ sectionMarker cat).length := by
    simp only [sectionMarker, List.length_append, List.length_cons, List.length_nil]
    omega
  unfold mergeChangelog
  rw [if_neg hguard]
  rw [hens]
  cases hm : lazyMatchEnd? unreleasedHdr (catHeaderLine cat) doc with
  | none =>
    rw [hm] at hmatch
    cases hmatch
  | some idx =>
    rw [hm] at hmatch
    have hidx2 : idx = (p ++ sectionMarker cat).length := by
      have hinj := Option.some.inj hmatch
      rw [hinj, hidx]
    rw [hidx2]
    show List.take (p ++ sectionMarker cat).length doc ++ mkInsertion e pr author
        ++ List.drop (p ++ sectionMarker cat).length doc
      = p ++ sectionMarker cat ++ mkInsertion e pr author ++ q
    rw [hdoc, take_len_app, drop_len_app]

theorem prefB_refl (s : Str) : prefB s s = true :=
  (prefB_iff s s).mpr ⟨[], by simp⟩

theorem dropWhile_head_not {p : Char → Bool} :
    ∀ {l cs : Str} {c : Char}, l.dropWhile p = c :: cs → p c = false := by
  intro l
  induction l with
  | nil =>
    intro cs c h
    exact absurd h (by simp)
  | cons a as ih =>
    intro cs c h
    rw [List.dropWhile_cons] at h
    by_cases hp : p a = true
    · rw [if_pos hp] at h
      exact ih h
    · rw [if_neg hp] at h
      cases h
      simpa using hp

theorem pyStrip_last_not_space {s c cs} (h : (pyStrip s).reverse = c :: cs) :
    isSpace c = false := by
  unfold pyStrip at h
  rw [List.reverse_reverse] at h
  exact dropWhile_head_not h

theorem endsSingleNewline_of_last_not_nl (u : Str) (c : Char) (hc : ¬ c = '\n') :
    endsSingleNewline (u ++ [c] ++ ['\n']) = true := by
  unfold endsSingleNewline
  rw [List.reverse_append, List.reverse_append]
  simp [hc]

/-! ## Claim theorems -/

/-- C1: changelog merge is idempotent per PR.  Whenever the document text
already contains `#<pr>` as a whole reference token (the regex
`(#)<pr>\b` matches), `mergeChangelog` returns the text unchanged, so
the file content written back is byte-for-byte the previous content. -/
theorem changelog_merge_idempotent (e : ChangelogEntry) (pr : Nat) (author text : Str)
    (h : hasToken (prToken pr) text = true) :
    mergeChangelog e pr author text = text := by
  unfold mergeChangelog
  rw [if_pos h]

/-- Witness for C1: the guard fires on a document containing `#42` and the
merge leaves the document unchanged. -/
theorem changelog_merge_idempotent_witness :
    hasToken (prToken 42) (("see #42 for details").data) = true
    ∧ mergeChangelog sampleEntry 42 (("bob").data) (("see #42 for details").data)
        = ("see #42 for details").data :=
  ⟨by decide,
    changelog_merge_idempotent sampleEntry 42 (("bob").data)
      (("see #42 for details").data) (by decide)⟩

/-- C2: category creation places the bullet in the wrong release.  On a
document whose only `### Security` heading belongs to the released
`[1.0.0]` section, the merge of a Security entry for PR 2 creates no
subsection under `## [Unreleased]` (the result has no
`Unreleased]\n\n### Security` region) and instead splices the new bullet
directly under the `[1.0.0]` release's `### Security` heading: the
`ensure_section` guard tests `\n### Security\n` against the whole
document, and the insertion regex stops at the first `### Security\n`
after `## [Unreleased]` even across release boundaries.  This contradicts
the specified behavior of creating the subsection directly under
`## [Unreleased]`. -/
theorem changelog_category_creation_bug :
    mergeChangelog secEntry 2 (("eve").data)
        (("# Changelog\n\n## [Unreleased]\n\n### Added\n - Seed (#1, @bob)\n\n## [1.0.0] - 2024-01-01\n\n### Security\n - Old hardening note\n").data)
      = c2result
    ∧ containsStr (("Unreleased]\n\n### Security").data) c2result = false
    ∧ containsStr (("## [1.0.0] - 2024-01-01\n\n### Security\n - Patch XSS (#2, @eve)\n").data) c2result = true :=
  ⟨by decide, by decide, by decide⟩

/-- C3 counterexample: the end-to-end scenario does not produce the claimed
block `### Fixed` + blank line + bullet line.  The merge inserts the
bullet at the end of the regex match, which is immediately after
`### Fixed\n` and before the blank line that `ensure_section` created, so
the result nowhere contains `### Fixed` followed by a blank line followed
by the bullet. -/
theorem changelog_end_to_end_counterexample :
    containsStr (("### Fixed\n\n - [parser]").data)
        (mergeChangelog c3entry 99 (("alice").data) changelogSkeleton) = false
    ∧ containsStr (("### Fixed\n - [parser]").data)
        (mergeChangelog c3entry 99 (("alice").data) changelogSkeleton) = true :=
  ⟨by decide, by decide⟩

/-- C3 amended: starting from the canonical skeleton, merging the scenario
entry for PR 99 by alice yields exactly the skeleton with
`### Fixed` inserted after `## [Unreleased]` and the bullet line spliced
directly after the `### Fixed` header (no blank line in between; the blank
lines created by `ensure_section` and the skeleton remain after the
block), with references `#7, #99, @alice` deduplicated and sorted. -/
theorem changelog_end_to_end_amended :
    mergeChangelog c3entry 99 (("alice").data) changelogSkeleton
      = ("# Changelog\n\nAll notable changes to this project will be documented in this file.\n\nThe format is based on [Keep a Changelog](https://keepachangelog.com/en/1.1.0/), and this project adheres to [Semantic Versioning](https://semver.org/spec/v2.0.0.html).\n\n## [Unreleased]\n\n### Fixed\n - [parser] ⚠️ BREAKING Fix crash on empty input (#7, #99, @alice)\n   - **Migration:** Call initParser() before use\n\n\n").data :=
  by decide

/-- C9: silent drop on malformed documents.  If the PR token guard passes
but the document contains no `## [Unreleased]\n` line (for instance when
the `## [Unreleased]` heading is the last line with no trailing newline)
and the insertion regex `## \[Unreleased\][\s\S]*?### <cat>\n` has no
match, then both the `ensure_section` replacement and the final fallback
replacement are no-ops, and the merge writes the document back completely
unchanged: the new bullet is silently dropped and no error is raised
(the merge is a total function). -/
theorem changelog_malformed_doc_unchanged (e : ChangelogEntry) (pr : Nat) (author text : Str)
    (h1 : hasToken (prToken pr) text = false)
    (h2 : containsStr unreleasedLine text = false)
    (h3 : lazyMatchEnd? unreleasedHdr (catHeaderLine e.category) text = none) :
    mergeChangelog e pr author text = text := by
  have hens : ensure_section text e.category = text := by
    unfold ensure_section
    by_cases hm : containsStr (sectionMarker e.category) text = true
    · rw [if_pos hm]
    · rw [if_neg hm]
      exact replaceAll_not_contains _ h2
  unfold mergeChangelog
  rw [if_neg (by rw [h1]; simp)]
  rw [hens, h3]
  exact replaceAll_not_contains _ h2

/-- Witness for C9: a file whose `## [Unreleased]` heading is the last line
with no trailing newline is written back unchanged. -/
theorem changelog_malformed_doc_unchanged_witness :
    (hasToken (prToken 5) (("# Changelog\n\n## [Unreleased]").data) = false
      ∧ containsStr unreleasedLine (("# Changelog\n\n## [Unreleased]").data) = false
      ∧ lazyMatchEnd? unreleasedHdr (catHeaderLine sampleEntry.category)
          (("# Changelog\n\n## [Unreleased]").data) = none)
    ∧ mergeChangelog sampleEntry 5 (("ann").data) (("# Changelog\n\n## [Unreleased]").data)
        = ("# Changelog\n\n## [Unreleased]").data :=
  ⟨⟨by decide, by decide, by decide⟩,
    changelog_malformed_doc_unchanged sampleEntry 5 (("ann").data)
      (("# Changelog\n\n## [Unreleased]").data) (by decide) (by decide) (by decide)⟩

/-- Witness for C5: merging a new `Added` entry for PR 7 into a document
with an existing `### Added` section holding `- old item` places the new
bullet between the header and the old item, leaving everything else
unchanged. -/
theorem changelog_prepend_ordering_witness :
    (hasToken (prToken 7) (c5p ++ sectionMarker sampleEntry.category ++ c5q) = false
      ∧ containsStr unreleasedHdr c5p = true
      ∧ firstIdx? (catHeaderLine sampleEntry.category)
          (c5p ++ sectionMarker sampleEntry.category ++ c5q) = some (c5p.length + 1))
    ∧ mergeChangelog sampleEntry 7 (("eve").data)
          (c5p ++ sectionMarker sampleEntry.category ++ c5q)
        = c5p ++ sectionMarker sampleEntry.category
            ++ mkInsertion sampleEntry 7 (("eve").data) ++ c5q :=
  ⟨⟨by decide, by decide, by decide⟩,
    changelog_prepend_ordering sampleEntry 7 (("eve").data) c5p c5q
      (by decide) (by decide) (by decide)⟩

/-- C4 counterexample: a document already containing the always-include
block twice is returned unchanged, so its occurrence count stays 2 — the
claimed count of exactly 1 is wrong for such documents. -/
theorem agents_always_include_counterexample :
    ensure_always_include_block (("BLOCK\n\nBLOCK\n").data) (("BLOCK").data)
        = ("BLOCK\n\nBLOCK\n").data
    ∧ countOcc (pyStrip (("BLOCK").data)) (("BLOCK\n\nBLOCK\n").data) = 2 :=
  ⟨by decide, by decide⟩

/-- C4 amended: for a block with non-empty stripped text, when the stripped
block is not a substring the merge appends exactly
`text + "\n\n" + stripped + "\n"` (the stripped block as a trailing block
after a blank-line separator) and the result ends in a single trailing
newline; when it is already a substring the text is returned completely
unchanged, so the occurrence count of the block is never increased (a
document with exactly one occurrence keeps exactly one). -/
theorem agents_always_include_guard (text required : Str) (h : pyStrip required ≠ []) :
    (containsStr (pyStrip required) text = false →
      ensure_always_include_block text required
          = text ++ ("\n\n").data ++ pyStrip required ++ ['\n']
        ∧ endsSingleNewline (ensure_always_include_block text required) = true)
    ∧ (containsStr (pyStrip required) text = true →
        ensure_always_include_block text required = text)
    ∧ (containsStr (pyStrip required) text = true →
        countOcc (pyStrip required) (ensure_always_include_block text required)
          = countOcc (pyStrip required) text) := by
  have hsplit : ∃ u c, pyStrip required = u ++ [c] ∧ isSpace c = false := by
    cases hrev : (pyStrip required).reverse with
    | nil => exact absurd (by simpa using hrev) h
    | cons c cs =>
      refine ⟨cs.reverse, c, ?_, pyStrip_last_not_space hrev⟩
      have hr := congrArg List.reverse hrev
      rw [List.reverse_reverse] at hr
      rw [hr]
      simp
  have happ : containsStr (pyStrip required) text = false →
      ensure_always_include_block text required
        = text ++ ("\n\n").data ++ pyStrip required ++ ['\n'] := by
    intro hc
    unfold ensure_always_include_block
    rw [if_neg h, if_neg (by rw [hc]; simp)]
  have hkeep : containsStr (pyStrip required) text = true →
      ensure_always_include_block text required = text := by
    intro hc
    unfold ensure_always_include_block
    rw [if_neg h, if_pos hc]
  refine ⟨?_, hkeep, ?_⟩
  · intro hc
    refine ⟨happ hc, ?_⟩
    rw [happ hc]
    rcases hsplit with ⟨u, c, hu, hcs⟩
    have hcn : ¬ c = '\n' := by
      intro hceq
      rw [hceq] at hcs
      simp [isSpace] at hcs
    have hshape : text ++ ("\n\n").data ++ pyStrip required ++ ['\n']
        = (text ++ ("\n\n").data ++ u) ++ [c] ++ ['\n'] := by
      rw [hu]
      simp [List.append_assoc]
    rw [hshape]
    exact endsSingleNewline_of_last_not_nl _ c hcn
  · intro hc
    rw [hkeep hc]

/-- Witness for C4: appending the block `B` to `x\n`. -/
theorem agents_always_include_guard_witness :
    pyStrip (("B").data) ≠ []
    ∧ containsStr (pyStrip (("B").data)) (("x\n").data) = false
    ∧ ensure_always_include_block (("x\n").data) (("B").data)
        = ("x\n").data ++ ("\n\n").data ++ pyStrip (("B").data) ++ ['\n'] :=
  ⟨by decide, by decide,
    ((agents_always_include_guard (("x\n").data) (("B").data) (by decide)).1 (by decide)).1⟩

/-- C6 counterexample: when the generator raises on a document already
containing the block twice, the enforced result is that document
unchanged, whose occurrence count is 2 — not "exactly once" as claimed. -/
theorem agents_generation_failure_counterexample :
    (llm_update (("B\n\nB").data) (("B").data) none).1 = ("B\n\nB").data
    ∧ countOcc (pyStrip (("B").data)) (("B\n\nB").data) = 2 :=
  ⟨by decide, by decide⟩

/-- C6 amended: when the generator call raises, `llm_update` returns exactly
the current on-disk content with the always-include block enforced,
paired with the fixed notice string; the result contains the stripped
block (appended as `current + "\n\n" + stripped + "\n"` when it was
absent), and when the block is already present the content is returned
unchanged, so enforcement never adds a second copy. -/
theorem agents_generation_failure_enforcement (current block : Str)
    (h : pyStrip block ≠ []) :
    llm_update current block none
        = (ensure_always_include_block current block, noLLMNotice)
    ∧ containsStr (pyStrip block) ((llm_update current block none).1) = true
    ∧ (containsStr (pyStrip block) current = true →
        (llm_update current block none).1 = current)
    ∧ (containsStr (pyStrip block) current = false →
        (llm_update current block none).1
          = current ++ ("\n\n").data ++ pyStrip block ++ ['\n']) := by
  refine ⟨rfl, ?_, ?_, ?_⟩
  · show containsStr (pyStrip block) (ensure_always_include_block current block) = true
    unfold ensure_always_include_block
    rw [if_neg h]
    by_cases hc : containsStr (pyStrip block) current = true
    · rw [if_pos hc]
      exact hc
    · rw [if_neg hc]
      exact containsStr_of_middle (pyStrip block) (current ++ ("\n\n").data) (['\n'])
  · intro hc
    show ensure_always_include_block current block = current
    unfold ensure_always_include_block
    rw [if_neg h, if_pos hc]
  · intro hc
    show ensure_always_include_block current block
        = current ++ ("\n\n").data ++ pyStrip block ++ ['\n']
    unfold ensure_always_include_block
    rw [if_neg h, if_neg (by rw [hc]; simp)]

/-- Witness for C6: generator failure over content `x` appends block `B`. -/
theorem agents_generation_failure_enforcement_witness :
    pyStrip (("B").data) ≠ []
    ∧ containsStr (pyStrip (("B").data)) (("x").data) = false
    ∧ (llm_update (("x").data) (("B").data) none).1
        = ("x").data ++ ("\n\n").data ++ pyStrip (("B").data) ++ ['\n'] :=
  ⟨by decide, by decide,
    (agents_generation_failure_enforcement (("x").data) (("B").data)
      (by decide)).2.2.2 (by decide)⟩

/-- C7 counterexample: the fallback summary is the *stripped* title
truncated to 200 characters, not the raw title truncated to 200
characters; a title with leading or trailing whitespace distinguishes
them. -/
theorem changelog_fallback_counterexample :
    (genChangelogEntry none ((" Fix crash ").data) []).summary
      ≠ ((" Fix crash ").data).take 200 := by
  decide

/-- C7 amended: whenever the generator call raises, the entry used by the
merge (before reference normalization) is exactly
`{category:"Changed", summary: title.strip()[:200], scope: scopeGuess,
breaking:false, migration:"", references:[]}`; the pipeline does not
abort (the generation step is a total function). -/
theorem changelog_fallback_determinism (title scopeGuess : Str) :
    genChangelogEntry none title scopeGuess
      = { category := ("Changed").data
          summary := (pyStrip title).take 200
          scope := scopeGuess
          breaking := false
          migration := []
          references := [] } :=
  rfl

/-- C8: mode-sensitive error propagation.  An exception escaping the
pipeline body is re-raised when the operating mode is `apply` and
swallowed when it is `suggest`; the mode itself is the
stripped-and-lowercased `AGENTS_MODE` value. -/
theorem agents_mode_sensitive_propagation (e : Str) :
    mainGuard (("apply").data) (Except.error e) = RunOutcome.raised e
    ∧ mainGuard (("suggest").data) (Except.error e) = RunOutcome.swallowed e
    ∧ normalizeMode (("  Apply ").data) = ("apply").data
    ∧ normalizeMode (("suggest").data) = ("suggest").data := by
  refine ⟨?_, ?_, by decide, by decide⟩
  · show (if ("apply").data = ("apply").data then RunOutcome.raised e
        else RunOutcome.swallowed e) = RunOutcome.raised e
    rw [if_pos rfl]
  · show (if ("suggest").data = ("apply").data then RunOutcome.raised e
        else RunOutcome.swallowed e) = RunOutcome.swallowed e
    rw [if_neg (by decide)]

/-- C10: an empty model replacement never erases the document.  When the
generator succeeds but returns an empty `updated_content`, the
`content or current` fallback makes the merge operate on the current
on-disk content, so the result is exactly the current content with the
always-include block enforced; in particular the current content is a
prefix of the result, which is therefore not empty and not block-only. -/
theorem agents_empty_update_preserves (current block s : Str) (h : current ≠ []) :
    (llm_update current block (some { updated_content := [], summary := s })).1
        = ensure_always_include_block current block
    ∧ prefB current
        ((llm_update current block (some { updated_content := [], summary := s })).1) = true
    ∧ (llm_update current block (some { updated_content := [], summary := s })).1 ≠ [] := by
  have hfst : (llm_update current block (some { updated_content := [], summary := s })).1
      = ensure_always_include_block current block := rfl
  have hpre : prefB current (ensure_always_include_block current block) = true := by
    unfold ensure_always_include_block
    by_cases h1 : pyStrip block = []
    · rw [if_pos h1]
      exact prefB_refl current
    · rw [if_neg h1]
      by_cases h2 : containsStr (pyStrip block) current = true
      · rw [if_pos h2]
        exact prefB_refl current
      · rw [if_neg h2]
        have hext := prefB_extend (("\n\n").data ++ pyStrip block ++ ['\n'])
          (prefB_refl current)
        simpa [List.append_assoc] using hext
  refine ⟨hfst, by rw [hfst]; exact hpre, ?_⟩
  rw [hfst]
  intro hnil
  rw [hnil] at hpre
  rcases (prefB_iff current []).mp hpre with ⟨t, ht⟩
  have hct : current = [] ∧ t = [] := by simpa using ht.symm
  exact h hct.1

/-- Witness for C10: current content `x\n`, block `B`, empty model output. -/
theorem agents_empty_update_preserves_witness :
    (("x\n").data : Str) ≠ []
    ∧ (llm_update (("x\n").data) (("B").data)
          (some { updated_content := [], summary := ("s").data })).1
        = ensure_always_include_block (("x\n").data) (("B").data) :=
  ⟨by decide,
    (agents_empty_update_preserves (("x\n").data) (("B").data) (("s").data) (by decide)).1⟩
